import Mathlib

/-!
Shallow embedding of the `pitstop` live-reload orchestrator (Go).

The Go package has three parts:
* `DidChange(dir, since)` — walks a directory tree with `filepath.Walk` and
  reports whether any regular file has a modification time strictly after
  `since`.  The walk callback returns any traversal error it is handed, which
  makes `filepath.Walk` abort the remainder of the walk; `DidChange` ignores
  the value returned by `filepath.Walk` and returns the `changed` flag.
* `Run(pre, run, post)` — the build pipeline: runs the pre build steps in
  order, then invokes the run action (`stop, err := run()` — a nil `run`
  function value panics at this call), then the post build steps, calling
  `stop()` before returning a post-step error.
* `Poller.Poll()` — the supervisor loop: every tick it calls
  `DidChange(p.Dir, lastBuild)`, and on a change stops the previously held
  process (if any), re-runs the pipeline and sets `lastBuild` to the current
  time.

Times are modelled as integers (`time.Time` with `After` = strict `<`).
Errors are modelled as natural numbers identifying the failing step.
-/

namespace Pitstop

/-- Model of `time.Time`: an instant; `a.After b` is `b < a`. -/
abbrev Time := Int

/-- A filesystem tree as seen by `filepath.Walk`, in traversal (lexical)
order.  `errEntry` stands for an entry for which the walk callback is invoked
with a non-nil error (unreadable directory, lstat failure, entry removed
mid-walk); per `filepath.Walk`'s contract, the callback returning that error
aborts the remaining walk. -/
inductive FSEntry where
  | file (name : String) (mtime : Time)
  | dir (name : String) (mtime : Time) (entries : List FSEntry)
  | errEntry (name : String)

mutual

/-- One step of the walk on a single entry, threading the `changed` flag.
Returns `(changed, aborted)`: the callback in `DidChange` returns the error
for an `errEntry` (aborting), returns nil for a directory (descending into
its entries), and for a regular file sets `changed` when
`info.ModTime().After(since)`. -/
def walkEntry (since : Time) (e : FSEntry) (c : Bool) : Bool × Bool :=
  match e with
  | FSEntry.errEntry _ => (c, true)
  | FSEntry.file _ m => (c || decide (since < m), false)
  | FSEntry.dir _ _ es => walkList since es c

/-- The walk over a directory's entries in order; an abort from one entry
skips all the following ones (the error propagates out of `filepath.Walk`). -/
def walkList (since : Time) (es : List FSEntry) (c : Bool) : Bool × Bool :=
  match es with
  | [] => (c, false)
  | e :: rest =>
    match walkEntry since e c with
    | (c', true) => (c', true)
    | (c', false) => walkList since rest c'

end

/-- `DidChange(dir, since)`: run the walk from the root with `changed = false`
and return the flag, ignoring the error returned by `filepath.Walk`
(poller.go lines 15–32). -/
def DidChange (root : FSEntry) (since : Time) : Bool :=
  (walkEntry since root false).1

mutual

/-- Every regular file in the tree (at any depth) has modification time
`≤ since`; error entries and directory timestamps are not constrained. -/
def allFilesLE (since : Time) (e : FSEntry) : Bool :=
  match e with
  | FSEntry.file _ m => decide (m ≤ since)
  | FSEntry.errEntry _ => true
  | FSEntry.dir _ _ es => allFilesLEList since es

/-- `allFilesLE` over a list of entries. -/
def allFilesLEList (since : Time) (es : List FSEntry) : Bool :=
  match es with
  | [] => true
  | e :: rest => allFilesLE since e && allFilesLEList since rest

end

/-! ## The pipeline `Run(pre, run, post)`

A `BuildFunc` is modelled by its outcome: `none` = success (nil error),
`some e` = failure with error `e`.  A `RunFunc` is modelled by the outcome of
its single invocation: `Except.ok ()` = process launched, stop capability
returned; `Except.error e` = launch failure `(nil, err)`.  The `run` argument
of `Run` is an `Option`: `none` models a nil `RunFunc` value, which Go
panics on at the call `stop, err := run()`.

Execution is recorded as a trace of events, so that statements about what was
and was not invoked — and how often `stop()` was called — are direct. -/

/-- Observable events of one `Run` invocation. -/
inductive Ev where
  | preStep (i : Nat)
  | runCall
  | postStep (i : Nat)
  | stopCall
deriving DecidableEq, Repr

/-- The value `Run` comes back with: `panicked` models the nil-function-call
panic (no return at all); `failed e` models `return nil, err` (no stop
capability); `ok` models `return stop, nil` (live stop capability). -/
inductive RunResult where
  | panicked
  | failed (e : Nat)
  | ok
deriving DecidableEq, Repr

/-- The pre-phase loop of `Run` (poller.go lines 79–84): execute each step in
order, stopping at the first failure.  `i` is the index of the first step. -/
def runPre (steps : List (Option Nat)) (i : Nat) : List Ev × Option Nat :=
  match steps with
  | [] => ([], none)
  | some e :: _ => ([Ev.preStep i], some e)
  | none :: rest =>
    let p := runPre rest (i + 1)
    (Ev.preStep i :: p.1, p.2)

/-- The post-phase loop of `Run` (poller.go lines 89–95): execute each step
in order; at the first failure call `stop()` and return the error. -/
def runPost (steps : List (Option Nat)) (i : Nat) : List Ev × Option Nat :=
  match steps with
  | [] => ([], none)
  | some e :: _ => ([Ev.postStep i, Ev.stopCall], some e)
  | none :: rest =>
    let p := runPost rest (i + 1)
    (Ev.postStep i :: p.1, p.2)

/-- `Run(pre, run, post)` (poller.go lines 78–97): pre steps, then
`stop, err := run()` (panic when `run` is nil), then post steps with
`stop()` on a post failure. -/
def Run (pre : List (Option Nat)) (run : Option (Except Nat Unit))
    (post : List (Option Nat)) : List Ev × RunResult :=
  match runPre pre 0 with
  | (tr, some e) => (tr, RunResult.failed e)
  | (tr, none) =>
    match run with
    | none => (tr, RunResult.panicked)
    | some (Except.error e) => (tr ++ [Ev.runCall], RunResult.failed e)
    | some (Except.ok _) =>
      match runPost post 0 with
      | (tr2, some e) => (tr ++ Ev.runCall :: tr2, RunResult.failed e)
      | (tr2, none) => (tr ++ Ev.runCall :: tr2, RunResult.ok)

/-! ## The supervisor `Poller.Poll`

`Poll` is an infinite loop; we embed one iteration of its body as a step
function on the loop-local state (`stop`, `lastBuild`).  The state carries a
`owned` ghost counter of processes launched by the supervisor and not yet
stopped, updated exactly where the code stops or launches a process.  The
step takes the filesystem as a map from path to tree (`DidChange` is invoked
on `fs p.Dir` — note: the raw field, the code never uses its locally
defaulted `dir` variable) and the current time for `lastBuild = time.Now()`.
A `none` result models the iteration panicking (nil `Run` function). -/

/-- The `Poller` configuration struct (poller.go lines 101–114). -/
structure Poller where
  ScanInterval : Nat
  Dir : String
  Pre : List (Option Nat)
  Run : Option (Except Nat Unit)
  Post : List (Option Nat)

/-- Observable events of one loop iteration of `Poll`. -/
inductive PEv where
  | scan (d : String)
  | stopOld
  | pipeline
  | sleep (n : Nat)
deriving DecidableEq, Repr

/-- The supervisor's loop-local state, plus the `owned` ghost counter. -/
structure PState where
  stop : Bool
  owned : Nat
  lastBuild : Time
deriving DecidableEq, Repr

/-- `scanInt := p.ScanInterval; if scanInt == 0 { scanInt = 500ms }`
(poller.go lines 118–121). -/
def effectiveScanInterval (p : Poller) : Nat :=
  if p.ScanInterval = 0 then 500 else p.ScanInterval

/-- `dir := p.Dir; if dir == "" { dir = "." }` (poller.go lines 122–125).
The loop body itself never reads this local: it scans `p.Dir`. -/
def effectiveDir (p : Poller) : String :=
  if p.Dir = "" then "." else p.Dir

/-- One iteration of the `for` loop in `Poll` (poller.go lines 131–147):
`if !DidChange(p.Dir, lastBuild) { sleep; continue }`, else stop the held
process if any, `stop, err = Run(p.Pre, p.Run, p.Post)`, set
`lastBuild = time.Now()`, sleep.  Returns `none` when `Run` panics. -/
def pollStep (p : Poller) (fs : String → FSEntry) (now : Time) (st : PState) :
    Option (List PEv × PState) :=
  if DidChange (fs p.Dir) st.lastBuild = false then
    some ([PEv.scan p.Dir, PEv.sleep (effectiveScanInterval p)], st)
  else
    let owned1 := if st.stop then st.owned - 1 else st.owned
    let tr := PEv.scan p.Dir ::
      ((if st.stop then [PEv.stopOld] else []) ++
        [PEv.pipeline, PEv.sleep (effectiveScanInterval p)])
    match Run p.Pre p.Run p.Post with
    | (_, RunResult.panicked) => none
    | (_, RunResult.failed _) =>
      some (tr, { stop := false, owned := owned1, lastBuild := now })
    | (_, RunResult.ok) =>
      some (tr, { stop := true, owned := owned1 + 1, lastBuild := now })

/-! ## Helper lemmas -/

/-- A run of all-succeeding pre-steps executes each of them in order. -/
theorem runPre_all_none (steps : List (Option Nat)) (i : Nat)
    (h : ∀ x ∈ steps, x = none) :
    runPre steps i = ((List.range' i steps.length).map Ev.preStep, none) := by
  induction steps generalizing i with
  | nil => simp [runPre]
  | cons a rest ih =>
    have ha : a = none := h a (by simp)
    subst ha
    have hr : ∀ x ∈ rest, x = none := fun x hx => h x (by simp [hx])
    simp [runPre, ih (i + 1) hr, List.range'_succ]

/-- A pre-phase whose first failure is the step after `l1` executes exactly
the steps up to and including the failing one and reports its error. -/
theorem runPre_first_fail (l1 : List (Option Nat)) (e : Nat)
    (l2 : List (Option Nat)) (i : Nat) (h : ∀ x ∈ l1, x = none) :
    runPre (l1 ++ some e :: l2) i
      = ((List.range' i (l1.length + 1)).map Ev.preStep, some e) := by
  induction l1 generalizing i with
  | nil => simp [runPre]
  | cons a rest ih =>
    have ha : a = none := h a (by simp)
    subst ha
    have hr : ∀ x ∈ rest, x = none := fun x hx => h x (by simp [hx])
    simp [runPre, ih (i + 1) hr, List.range'_succ]

/-- A post-phase whose first failure is the step after `l1` executes exactly
the steps up to and including the failing one, then calls `stop()` once. -/
theorem runPost_first_fail (l1 : List (Option Nat)) (e : Nat)
    (l2 : List (Option Nat)) (i : Nat) (h : ∀ x ∈ l1, x = none) :
    runPost (l1 ++ some e :: l2) i
      = ((List.range' i (l1.length + 1)).map Ev.postStep ++ [Ev.stopCall],
         some e) := by
  induction l1 generalizing i with
  | nil => simp [runPost]
  | cons a rest ih =>
    have ha : a = none := h a (by simp)
    subst ha
    have hr : ∀ x ∈ rest, x = none := fun x hx => h x (by simp [hx])
    simp [runPost, ih (i + 1) hr, List.range'_succ]

mutual

/-- If every file of the tree has mtime `≤ since`, walking the entry leaves
the `changed` flag as it was. -/
theorem walkEntry_le (since : Time) (e : FSEntry) (c : Bool)
    (h : allFilesLE since e = true) : (walkEntry since e c).1 = c := by
  match e with
  | FSEntry.errEntry _ => simp [walkEntry]
  | FSEntry.file _ m =>
    simp only [allFilesLE, decide_eq_true_eq] at h
    simp [walkEntry, not_lt.mpr h]
  | FSEntry.dir _ _ es =>
    simp only [allFilesLE] at h
    simpa [walkEntry] using walkList_le since es c h

/-- `walkEntry_le`, over a list of entries. -/
theorem walkList_le (since : Time) (es : List FSEntry) (c : Bool)
    (h : allFilesLEList since es = true) : (walkList since es c).1 = c := by
  match es with
  | [] => simp [walkList]
  | e :: rest =>
    simp only [allFilesLEList, Bool.and_eq_true] at h
    rw [walkList]
    rcases hw : walkEntry since e c with ⟨c', ab⟩
    have h1 : c' = c := by
      have h2 := walkEntry_le since e c h.1
      rw [hw] at h2
      exact h2
    cases ab with
    | true =>
      show c' = c
      exact h1
    | false =>
      show (walkList since rest c').1 = c
      rw [walkList_le since rest c' h.2, h1]

end

/-- Walking `l1 ++ l2` when `l1` does not abort: first walk `l1`, then `l2`
from the flag `l1` produced. -/
theorem walkList_append (since : Time) (l1 l2 : List FSEntry) (c : Bool)
    (h : (walkList since l1 c).2 = false) :
    walkList since (l1 ++ l2) c = walkList since l2 (walkList since l1 c).1 := by
  induction l1 generalizing c with
  | nil => simp [walkList]
  | cons e rest ih =>
    have hh := h
    rw [walkList] at hh
    rcases hw : walkEntry since e c with ⟨c', ab⟩
    rw [hw] at hh
    cases ab with
    | true => exact absurd hh (by simp)
    | false =>
      have step1 : walkList since ((e :: rest) ++ l2) c
          = walkList since (rest ++ l2) c' := by
        rw [List.cons_append, walkList, hw]
      have step2 : walkList since (e :: rest) c = walkList since rest c' := by
        rw [walkList, hw]
      rw [step1, step2]
      exact ih c' hh

/-! ## Claim theorems: the pipeline -/

/-- C3: when a pre-step fails after a prefix `pre1` of succeeding pre-steps,
`Run` executes exactly the pre-steps `0 .. pre1.length` (the last being the
failing one), never calls the run action, executes no post-step, never calls
`stop()`, and returns the failing step's own error with no stop capability
(result `failed e`, modelling `return nil, err`). -/
theorem run_pre_failure (pre1 : List (Option Nat)) (e : Nat)
    (pre2 : List (Option Nat)) (run : Option (Except Nat Unit))
    (post : List (Option Nat)) (h : ∀ x ∈ pre1, x = none) :
    Run (pre1 ++ some e :: pre2) run post
      = ((List.range' 0 (pre1.length + 1)).map Ev.preStep,
         RunResult.failed e) ∧
    Ev.runCall ∉ (Run (pre1 ++ some e :: pre2) run post).1 ∧
    Ev.stopCall ∉ (Run (pre1 ++ some e :: pre2) run post).1 ∧
    (∀ i, Ev.postStep i ∉ (Run (pre1 ++ some e :: pre2) run post).1) ∧
    (∀ i, pre1.length < i →
      Ev.preStep i ∉ (Run (pre1 ++ some e :: pre2) run post).1) := by
  have key : Run (pre1 ++ some e :: pre2) run post
      = ((List.range' 0 (pre1.length + 1)).map Ev.preStep,
         RunResult.failed e) := by
    unfold Run
    rw [runPre_first_fail pre1 e pre2 0 h]
  refine ⟨key, ?_, ?_, ?_, ?_⟩ <;> rw [key] <;> simp
  omega

/-- C4 witness input check is below; C4: when all pre-steps succeed, the run
action starts, and the first post failure is the step after `post1`, `Run`
executes the pre-steps, calls the run action, executes the post-steps
`0 .. post1.length` (the last being the failing one), calls `stop()` exactly
once — after the failing post-step and before returning — and returns the
post-step's error with no stop capability. -/
theorem run_post_failure (pre post1 post2 : List (Option Nat)) (e : Nat)
    (hpre : ∀ x ∈ pre, x = none) (hpost : ∀ x ∈ post1, x = none) :
    Run pre (some (Except.ok ())) (post1 ++ some e :: post2)
      = ((List.range' 0 pre.length).map Ev.preStep ++ Ev.runCall ::
          ((List.range' 0 (post1.length + 1)).map Ev.postStep ++
            [Ev.stopCall]),
         RunResult.failed e) ∧
    ((Run pre (some (Except.ok ())) (post1 ++ some e :: post2)).1).count
        Ev.stopCall = 1 ∧
    (∀ i, post1.length < i →
      Ev.postStep i ∉
        (Run pre (some (Except.ok ())) (post1 ++ some e :: post2)).1) := by
  have key : Run pre (some (Except.ok ())) (post1 ++ some e :: post2)
      = ((List.range' 0 pre.length).map Ev.preStep ++ Ev.runCall ::
          ((List.range' 0 (post1.length + 1)).map Ev.postStep ++
            [Ev.stopCall]),
         RunResult.failed e) := by
    unfold Run
    rw [runPre_all_none pre 0 hpre, runPost_first_fail post1 e post2 0 hpost]
  refine ⟨key, ?_, ?_⟩ <;> rw [key]
  · have h1 : (List.map Ev.preStep (List.range' 0 pre.length)).count
        Ev.stopCall = 0 := List.count_eq_zero.mpr (by simp)
    have h2 : (List.map Ev.postStep
        (List.range' 0 (post1.length + 1))).count Ev.stopCall = 0 :=
      List.count_eq_zero.mpr (by simp)
    simp [List.count_append, List.count_cons, h1, h2]
  · intro i hi
    simp
    omega

/-- C5: when all pre-steps succeed and the run action fails to start, `Run`
executes the pre-steps and the run call only: no post-step is invoked, no
`stop()` is called, and the run action's error is returned unchanged with no
stop capability. -/
theorem run_start_failure (pre : List (Option Nat)) (e : Nat)
    (post : List (Option Nat)) (hpre : ∀ x ∈ pre, x = none) :
    Run pre (some (Except.error e)) post
      = ((List.range' 0 pre.length).map Ev.preStep ++ [Ev.runCall],
         RunResult.failed e) ∧
    (∀ i, Ev.postStep i ∉ (Run pre (some (Except.error e)) post).1) ∧
    Ev.stopCall ∉ (Run pre (some (Except.error e)) post).1 := by
  have key : Run pre (some (Except.error e)) post
      = ((List.range' 0 pre.length).map Ev.preStep ++ [Ev.runCall],
         RunResult.failed e) := by
    unfold Run
    rw [runPre_all_none pre 0 hpre]
  refine ⟨key, ?_, ?_⟩ <;> rw [key] <;> simp

/-- C5 witness: pre `[ok]`, run action failing with error 4, post `[ok]`:
`Run` executes pre-step 0 and the run call, nothing else, and returns
error 4 with no stop capability. -/
theorem run_start_failure_witness :
    Run [none] (some (Except.error 4)) [none]
      = ([Ev.preStep 0, Ev.runCall], RunResult.failed 4) ∧
    (∀ i, Ev.postStep i ∉ (Run [none] (some (Except.error 4)) [none]).1) ∧
    Ev.stopCall ∉ (Run [none] (some (Except.error 4)) [none]).1 := by
  have h := run_start_failure [none] 4 [none] (by simp)
  simpa using h

/-- C3 witness: pre `[ok, fail 7, fail 3]`: only pre-steps 0 and 1 execute,
the run action and post-steps are untouched, and error 7 is returned. -/
theorem run_pre_failure_witness :
    Run [none, some 7, some 3] (some (Except.ok ())) [some 5]
      = ([Ev.preStep 0, Ev.preStep 1], RunResult.failed 7) := by
  have h := run_pre_failure [none] 7 [some 3] (some (Except.ok ()))
    [some 5] (by simp)
  simpa using h.1

/-- C4 witness: pre `[ok]`, run ok, post `[ok, fail 3, ok]`: the trace is
pre-step 0, the run call, post-steps 0 and 1, then a single `stop()` call,
and error 3 is returned with no stop capability. -/
theorem run_post_failure_witness :
    Run [none] (some (Except.ok ())) [none, some 3, none]
      = ([Ev.preStep 0, Ev.runCall, Ev.postStep 0, Ev.postStep 1,
          Ev.stopCall], RunResult.failed 3) ∧
    ((Run [none] (some (Except.ok ())) [none, some 3, none]).1).count
        Ev.stopCall = 1 := by
  have h := run_post_failure [none] [none] [none] 3 (by simp) (by simp)
  exact ⟨by simpa using h.1, h.2.1⟩

/-- C6 counterexample: calling `Run` with a nil run action, an empty pre
sequence and an empty post sequence reaches `stop, err := run()` and panics
(a nil function value is called); `Run` does not complete. -/
theorem run_nil_run_cex : Run [] none [] = ([], RunResult.panicked) := rfl

/-- C6 amended: whenever every pre-step succeeds, `Run` with a nil run
action executes the pre-steps and then panics at `stop, err := run()`; it
never completes normally.  (It returns without panicking only when some
pre-step fails first.) -/
theorem run_nil_run_panics (pre post : List (Option Nat))
    (h : ∀ x ∈ pre, x = none) :
    Run pre none post
      = ((List.range' 0 pre.length).map Ev.preStep, RunResult.panicked) := by
  unfold Run
  rw [runPre_all_none pre 0 h]

/-- C6 amended, witness: one succeeding pre-step, nil run action. -/
theorem run_nil_run_panics_witness :
    Run [none] none [] = ([Ev.preStep 0], RunResult.panicked) := by
  have h := run_nil_run_panics [none] [] (by simp)
  simpa using h

/-! ## Claim theorems: the change detector -/

/-- C7: (a) for a directory holding exactly one regular file of mtime `t0`
(whatever the directory's own timestamp), `DidChange` is true exactly when
the watermark is strictly before `t0`; (b) for any tree — directories of any
mtime, any nesting — whose regular files all have mtime `≤ since`,
`DidChange` is false. -/
theorem didChange_watermark :
    (∀ (dn fn : String) (dmt t0 t : Time),
      DidChange (FSEntry.dir dn dmt [FSEntry.file fn t0]) t
        = decide (t < t0)) ∧
    (∀ (e : FSEntry) (since : Time), allFilesLE since e = true →
      DidChange e since = false) := by
  constructor
  · intro dn fn dmt t0 t
    simp [DidChange, walkEntry, walkList]
  · intro e since h
    simpa [DidChange] using walkEntry_le since e false h

/-- C7 witness: one file of mtime 5 under a directory of mtime 99: watermark
3 sees the change; and a tree whose files (nested, mtime ≤ 7) are older than
watermark 7 reports no change despite directory mtimes 99 and 98. -/
theorem didChange_watermark_witness :
    DidChange (FSEntry.dir "d" 99 [FSEntry.file "a" 5]) 3 = true ∧
    DidChange
      (FSEntry.dir "d" 99
        [FSEntry.file "a" 5, FSEntry.dir "s" 98 [FSEntry.file "b" 7]]) 7
      = false := by
  constructor
  · have h := didChange_watermark.1 "d" "a" 99 5 3
    simpa using h
  · exact didChange_watermark.2
      (FSEntry.dir "d" 99
        [FSEntry.file "a" 5, FSEntry.dir "s" 98 [FSEntry.file "b" 7]]) 7 rfl

/-- C1 counterexample: the root directory holds, in traversal order, an
erroring entry `a` and then a readable regular file `b` with mtime `5`
strictly after `since = 0`; the claim says `hasChanged` still returns true,
but the error on `a` makes the walk callback return the error, aborting the
whole `filepath.Walk`, and `DidChange` returns false. -/
theorem didChange_error_skips_rest_cex :
    DidChange (FSEntry.dir "r" 0 [FSEntry.errEntry "a", FSEntry.file "b" 5])
        0 = false ∧
    (0 : Time) < 5 := ⟨rfl, by decide⟩

/-- C1 amended: a traversal error is still never surfaced to the caller
(`DidChange` returns a plain boolean), and everything the walk observed
before the erroring entry is kept; but instead of skipping the entry and
continuing, the walk aborts there: the result equals exactly what the prefix
before the error produced, and the entries after the error (here `es2`,
arbitrary) are never scanned. -/
theorem didChange_error_aborts (n : String) (m : Time) (es1 : List FSEntry)
    (x : String) (es2 : List FSEntry) (since : Time)
    (h : (walkList since es1 false).2 = false) :
    DidChange (FSEntry.dir n m (es1 ++ FSEntry.errEntry x :: es2)) since
      = (walkList since es1 false).1 := by
  have key : walkEntry since (FSEntry.dir n m (es1 ++ FSEntry.errEntry x :: es2)) false
      = walkList since (es1 ++ FSEntry.errEntry x :: es2) false := by
    rw [walkEntry]
  rw [DidChange, key, walkList_append since es1 (FSEntry.errEntry x :: es2) false h,
    walkList, walkEntry]

/-- C1 amended, witness: the changed file `a` (mtime 5 > 0) before the
erroring entry is still reported, although the file `z` after the error is
never reached. -/
theorem didChange_error_aborts_witness :
    DidChange
      (FSEntry.dir "r" 0
        [FSEntry.file "a" 5, FSEntry.errEntry "e", FSEntry.file "z" 9]) 0
      = true := by
  have h := didChange_error_aborts "r" 0 [FSEntry.file "a" 5] "e"
    [FSEntry.file "z" 9] 0 rfl
  simpa using h

/-- C10: when the root itself cannot be read (nonexistent path, the empty
string, permission failure), `filepath.Walk` hands the callback the error,
the callback returns it, and `DidChange` — which ignores `Walk`'s return
value — is left with its initial `changed = false`. -/
theorem didChange_bad_root (name : String) (since : Time) :
    DidChange (FSEntry.errEntry name) since = false := rfl

/-! ## Claim theorems: the supervisor loop -/

/-- A filesystem in which the current directory "." holds a regular file of
mtime 5 and every other path (among them the empty string) fails to resolve. -/
def fsCwdChanged : String → FSEntry := fun d =>
  if d = "." then FSEntry.dir "." 0 [FSEntry.file "main.go" 5]
  else FSEntry.errEntry d

/-- C2: the loop body scans `p.Dir` itself, not the defaulted `dir` local.
With `Dir = ""` and a file under "." modified after the watermark, the
iteration emits `scan ""` (not `scan "."`), `DidChange` on the unreadable
path "" is false, and the pipeline is never invoked — the state does not
change, though `DidChange` on the default directory "." would have returned
true.  (The code computes `dir = "."` — `effectiveDir` — and never uses it:
the claim fails, against the `Dir` field's own documented default.) -/
theorem poll_scans_raw_dir_field :
    pollStep ⟨0, "", [], some (Except.ok ()), []⟩ fsCwdChanged 9 ⟨false, 0, 0⟩
      = some ([PEv.scan "", PEv.sleep 500], ⟨false, 0, 0⟩) ∧
    DidChange (fsCwdChanged ".") 0 = true ∧
    DidChange (fsCwdChanged "") 0 = false ∧
    effectiveDir ⟨0, "", [], some (Except.ok ()), []⟩ = "." :=
  ⟨rfl, rfl, rfl, rfl⟩

/-- C8: one loop iteration keeps the supervisor owning at most one live
process.  If the state is well formed (`owned` matches whether a stop
capability is held), then after any non-panicking iteration it still is and
`owned ≤ 1`; and when a change is detected while a capability is held, the
trace is exactly scan, stop-of-the-old-process, pipeline, sleep — the held
capability is invoked (and then overwritten by `stop, err = Run(...)`)
before the pipeline result is installed. -/
theorem poll_single_stop_capability (p : Poller) (fs : String → FSEntry)
    (now : Time) (st : PState) (tr : List PEv) (st' : PState)
    (hwf : st.owned = if st.stop then 1 else 0)
    (h : pollStep p fs now st = some (tr, st')) :
    (st'.owned = if st'.stop then 1 else 0) ∧ st'.owned ≤ 1 ∧
    (st.stop = true → DidChange (fs p.Dir) st.lastBuild = true →
      tr = [PEv.scan p.Dir, PEv.stopOld, PEv.pipeline,
            PEv.sleep (effectiveScanInterval p)]) := by
  have howned : (if st.stop then st.owned - 1 else st.owned) = 0 := by
    rw [hwf]
    cases st.stop <;> simp
  by_cases hc : DidChange (fs p.Dir) st.lastBuild = false
  · rw [pollStep, if_pos hc] at h
    rw [Option.some.injEq, Prod.mk.injEq] at h
    obtain ⟨htr, hst⟩ := h
    subst htr
    subst hst
    refine ⟨hwf, ?_, ?_⟩
    · rw [hwf]
      cases st.stop <;> simp
    · intro _ hdc
      rw [hdc] at hc
      exact absurd hc (by simp)
  · rw [pollStep, if_neg hc] at h
    have hstop : st.stop = true → (if st.stop then [PEv.stopOld] else [])
        = [PEv.stopOld] := by intro hs; rw [hs]; rfl
    rcases hr : Run p.Pre p.Run p.Post with ⟨rtr, rres⟩
    rw [hr] at h
    cases rres with
    | panicked => exact absurd h (by simp)
    | failed e =>
      rw [Option.some.injEq, Prod.mk.injEq] at h
      obtain ⟨htr, hst⟩ := h
      subst htr
      subst hst
      refine ⟨by simpa using howned, by simp [howned], ?_⟩
      intro hs _
      rw [hstop hs]
      rfl
    | ok =>
      rw [Option.some.injEq, Prod.mk.injEq] at h
      obtain ⟨htr, hst⟩ := h
      subst htr
      subst hst
      refine ⟨by simpa using howned, by simp [howned], ?_⟩
      intro hs _
      rw [hstop hs]
      rfl

/-- C8 witness: a change under directory "d" while a capability is held
(`owned = 1`): the iteration stops the old process before the pipeline and
ends owning exactly the one new process. -/
theorem poll_single_stop_capability_witness :
    ((1 : Nat) = if true then 1 else 0) ∧ (1 : Nat) ≤ 1 ∧
    (true = true →
      DidChange (FSEntry.dir "d" 0 [FSEntry.file "a" 5]) 0 = true →
      [PEv.scan "d", PEv.stopOld, PEv.pipeline, PEv.sleep 500]
        = [PEv.scan "d", PEv.stopOld, PEv.pipeline, PEv.sleep 500]) :=
  poll_single_stop_capability ⟨0, "d", [], some (Except.ok ()), []⟩
    (fun _ => FSEntry.dir "d" 0 [FSEntry.file "a" 5]) 9 ⟨true, 1, 0⟩
    [PEv.scan "d", PEv.stopOld, PEv.pipeline, PEv.sleep 500] ⟨true, 1, 9⟩
    rfl rfl

/-- C9: a scan that reports no change only sleeps for the (defaulted) scan
interval: the state — watermark `lastBuild` and held stop capability — is
returned unchanged and the trace holds no pipeline event; and since the
state and filesystem are unchanged, the next iteration (at any later time
`now'`) does exactly the same, so two consecutive scans with no intervening
modification never re-invoke the pipeline. -/
theorem poll_no_change (p : Poller) (fs : String → FSEntry)
    (now now' : Time) (st : PState)
    (h : DidChange (fs p.Dir) st.lastBuild = false) :
    pollStep p fs now st
      = some ([PEv.scan p.Dir, PEv.sleep (effectiveScanInterval p)], st) ∧
    pollStep p fs now' st
      = some ([PEv.scan p.Dir, PEv.sleep (effectiveScanInterval p)], st) ∧
    PEv.pipeline ∉ [PEv.scan p.Dir, PEv.sleep (effectiveScanInterval p)] := by
  refine ⟨?_, ?_, by simp⟩ <;> rw [pollStep, if_pos h]

/-- C9 witness: an empty tree under "w", watermark 5, scan interval 7: two
consecutive iterations both just sleep and leave the state unchanged. -/
theorem poll_no_change_witness :
    pollStep ⟨7, "w", [], none, []⟩ (fun _ => FSEntry.dir "w" 3 []) 11
        ⟨false, 0, 5⟩
      = some ([PEv.scan "w", PEv.sleep 7], ⟨false, 0, 5⟩) ∧
    pollStep ⟨7, "w", [], none, []⟩ (fun _ => FSEntry.dir "w" 3 []) 12
        ⟨false, 0, 5⟩
      = some ([PEv.scan "w", PEv.sleep 7], ⟨false, 0, 5⟩) ∧
    PEv.pipeline ∉ [PEv.scan "w", PEv.sleep 7] := by
  have h := poll_no_change ⟨7, "w", [], none, []⟩
    (fun _ => FSEntry.dir "w" 3 []) 11 12 ⟨false, 0, 5⟩ rfl
  simpa using h

end Pitstop
